import Mathlib

/-!
# Verification of the RAG pipeline of Emrehrz/ai-chat-app

Shallow embedding of `src/backend/app/rag/chunking.py`,
`src/backend/app/rag/loaders.py` and `src/backend/app/rag/service.py`.

Text is modelled as `List Char` (Python strings are sequences of code
points; our concrete inputs are ASCII, and the whitespace classes used by
`str.strip` and the regex class `\s` agree on the ASCII characters
modelled here).  Python's unbounded `while` loops are modelled with
explicit fuel returning `Option`; sufficiency of the fuel is proved, not
assumed.
-/

namespace AiChat

/-- The ASCII characters matched by Python's regex class `\s`
(and stripped by `str.strip`): space, tab, newline, carriage return,
vertical tab, form feed. -/
def isPySpace (c : Char) : Bool :=
  c = ' ' || c = '\t' || c = '\n' || c = '\r' || c = Char.ofNat 11 || c = Char.ofNat 12

/-- Sentence-terminator characters of the regex `[.!?]+(?:\s+|$)`. -/
def isTerm (c : Char) : Bool :=
  c = '.' || c = '!' || c = '?'

/-- The backtick character (used by the ``` code-fence patterns). -/
def btick : Char := Char.ofNat 96

/-- Python slice `t[a:b]` (for `0 ≤ a ≤ b`; out-of-range ends clamp). -/
def slice (t : List Char) (a b : Nat) : List Char :=
  (t.drop a).take (b - a)

/-- Python `str.strip()`: drop whitespace from both ends. -/
def pyStrip (l : List Char) : List Char :=
  ((l.dropWhile isPySpace).reverse.dropWhile isPySpace).reverse

/-!
## Regex scanners

Each scanner is a direct state-machine rendering of the `re` calls in
`chunking.py`, processing the scanned slice one character at a time.
-/

/-- `re.finditer(r"[.!?]+(?:\s+|$)", s)` match *ends*, offset by `pos`
(the absolute position of the first character of `s`).
State `st`: 0 = scanning, 1 = inside a terminator run,
2 = inside the whitespace run following a terminator run.
Used by `_find_sentence_boundaries`. -/
def sentScan : List Char → Nat → Nat → List Nat
  | [], pos, st => if st = 1 || st = 2 then [pos] else []
  | c :: r, pos, st =>
    if st = 2 then
      if isPySpace c then sentScan r (pos + 1) 2
      else if isTerm c then pos :: sentScan r (pos + 1) 1
      else pos :: sentScan r (pos + 1) 0
    else if st = 1 then
      if isTerm c then sentScan r (pos + 1) 1
      else if isPySpace c then sentScan r (pos + 1) 2
      else sentScan r (pos + 1) 0
    else
      if isTerm c then sentScan r (pos + 1) 1
      else sentScan r (pos + 1) 0

/-- `_find_sentence_boundaries(text, start_pos, end_pos)`:
positions `start_pos + match.end()` over the slice `text[start_pos:end_pos]`. -/
def findSentenceBoundaries (t : List Char) (s e : Nat) : List Nat :=
  sentScan (slice t s e) s 0

/-- Count of leading `'#'` characters. -/
def countHashes : List Char → Nat
  | '#' :: r => countHashes r + 1
  | _ => 0

/-- Does `^#{1,6}\s+` match at the head of `cs` (which is at a line start)?
Backtracking over `#{1,6}` never helps because the characters inside the
hash run are not whitespace, so this holds iff the leading hash run has
length 1..6 and is followed by a whitespace character. -/
def headerAt (cs : List Char) : Bool :=
  let j := countHashes cs
  1 ≤ j && j ≤ 6 &&
    (match cs.drop j with
     | d :: _ => isPySpace d
     | [] => false)

/-- `re.finditer(r"^#{1,6}\s+", s, re.MULTILINE)` match *starts*, offset by
`pos`; `atStart` records whether the current position is a line start.
(No multiline match is lost to non-overlap: the consumed tail of a match is
whitespace, which cannot contain the `'#'` of another match.) -/
def headerScan : List Char → Nat → Bool → List Nat
  | [], _, _ => []
  | c :: r, pos, atStart =>
    (if atStart && headerAt (c :: r) then [pos] else []) ++
      headerScan r (pos + 1) (c = '\n')

/-- `re.finditer(r"```", s)` match *starts*, offset by `pos`;
`run` counts backticks accumulated towards the current (non-overlapping)
match. -/
def fenceScan : List Char → Nat → Nat → List Nat
  | [], _, _ => []
  | c :: r, pos, run =>
    if c = btick then
      if run = 2 then (pos - 2) :: fenceScan r (pos + 1) 0
      else fenceScan r (pos + 1) (run + 1)
    else fenceScan r (pos + 1) 0

/-- `re.finditer(r"\n\n+", s)` match *ends*, offset by `pos`;
`run` is the length of the current newline run. -/
def paraScan : List Char → Nat → Nat → List Nat
  | [], pos, run => if 2 ≤ run then [pos] else []
  | c :: r, pos, run =>
    if c = '\n' then paraScan r (pos + 1) (run + 1)
    else if 2 ≤ run then pos :: paraScan r (pos + 1) 0
    else paraScan r (pos + 1) 0

/-- Insert into a sorted duplicate-free list, keeping it sorted and
duplicate-free. -/
def insertUnique (n : Nat) : List Nat → List Nat
  | [] => [n]
  | m :: r =>
    if n < m then n :: m :: r
    else if n = m then m :: r
    else m :: insertUnique n r

/-- Python `sorted(set(l))` on a list of ints. -/
def sortedDedup : List Nat → List Nat
  | [] => []
  | n :: r => insertUnique n (sortedDedup r)

/-- `_find_markdown_boundaries(text, start_pos, end_pos)`:
header and code-fence match starts plus paragraph-break match ends over
the slice, deduplicated and sorted. -/
def findMarkdownBoundaries (t : List Char) (s e : Nat) : List Nat :=
  sortedDedup
    (headerScan (slice t s e) s true ++ fenceScan (slice t s e) s 0 ++
      paraScan (slice t s e) s 0)

/-!
### `_is_markdown` pattern tests
-/

/-- `re.search(r"^\s*[-*+]\s+", s, re.MULTILINE)` truthiness.
`flag` = every character since the most recent line start is whitespace
(`\s` matches `\n`, so anchoring at the most recent line start is
complete). -/
def bulletSearch : List Char → Bool → Bool
  | [], _ => false
  | [_], _ => false
  | c :: d :: r, flag =>
    if flag && (c = '-' || c = '*' || c = '+') && isPySpace d then true
    else bulletSearch (d :: r) (if c = '\n' then true else isPySpace c && flag)

/-- Count of leading decimal digits. -/
def countDigits : List Char → Nat
  | c :: r => if c.isDigit then countDigits r + 1 else 0
  | [] => 0

/-- Does `\d+\.\s+` match at the head of `cs`?  As with `headerAt`,
backtracking over `\d+` never helps. -/
def orderedAt (cs : List Char) : Bool :=
  let j := countDigits cs
  1 ≤ j &&
    (match cs.drop j with
     | '.' :: d :: _ => isPySpace d
     | _ => false)

/-- `re.search(r"^\s*\d+\.\s+", s, re.MULTILINE)` truthiness. -/
def orderedSearch : List Char → Bool → Bool
  | [], _ => false
  | c :: r, flag =>
    if flag && orderedAt (c :: r) then true
    else orderedSearch r (if c = '\n' then true else isPySpace c && flag)

/-- After a `'('`: is there a `')'` before the next newline
(`.` does not match `\n`)? -/
def closeParen : List Char → Bool
  | [] => false
  | c :: r => if c = ')' then true else if c = '\n' then false else closeParen r

/-- After a `'['`: does `.*?\]\(.*?\)` match before the next newline?
A failed `](`-candidate does not end the search: a later `']'` on the same
line may still complete the pattern. -/
def afterBracket : List Char → Bool
  | [] => false
  | c :: r =>
    if c = '\n' then false
    else if c = ']' then
      (match r with
       | '(' :: r2 => if closeParen r2 then true else afterBracket r
       | _ => afterBracket r)
    else afterBracket r

/-- `re.search(r"\[.*?\]\(.*?\)", s)` truthiness. -/
def linkSearch : List Char → Bool
  | [] => false
  | c :: r => if c = '[' then (if afterBracket r then true else linkSearch r) else linkSearch r

/-- After a `**` opener: is there a `**` before the next newline? -/
def boldClose : List Char → Bool
  | c :: d :: r =>
    if c = '\n' then false
    else if c = '*' && d = '*' then true
    else boldClose (d :: r)
  | _ => false

/-- `re.search(r"\*\*.*?\*\*", s)` truthiness. -/
def boldSearch : List Char → Bool
  | c :: d :: r =>
    if c = '*' && d = '*' then (if boldClose r then true else boldSearch (d :: r))
    else boldSearch (d :: r)
  | _ => false

/-- After a `'_'` opener: is there a `'_'` before the next newline? -/
def italClose : List Char → Bool
  | [] => false
  | c :: r => if c = '\n' then false else if c = '_' then true else italClose r

/-- `re.search(r"_.*?_", s)` truthiness. -/
def italSearch : List Char → Bool
  | [] => false
  | c :: r => if c = '_' then (if italClose r then true else italSearch r) else italSearch r

/-- `_is_markdown(text)`: any of the seven patterns matches somewhere in
the first 2000 characters. -/
def isMarkdown (t : List Char) : Bool :=
  let s := t.take 2000
  !(headerScan s 0 true).isEmpty || !(fenceScan s 0 0).isEmpty ||
    bulletSearch s true || orderedSearch s true ||
    linkSearch s || boldSearch s || italSearch s

/-!
## `chunk_text`
-/

/-- `abs(a - b)` on Python ints, for naturals. -/
def natDist (a b : Nat) : Nat := max a b - min a b

/-- The `for boundary in boundaries` selection loop of `chunk_text`
(lines 118-125), started with `best = target_end`. -/
def bestEndLoop (start te co : Nat) : List Nat → Nat → Nat
  | [], best => best
  | b :: r, best =>
    if start < b && b ≤ te + co then
      if natDist b te < natDist best te then bestEndLoop start te co r b
      else bestEndLoop start te co r best
    else if te + co < b then best
    else bestEndLoop start te co r best

/-- The `boundaries` list assembled by one iteration of the main loop of
`chunk_text` (lines 98-115): sentence boundaries, markdown boundaries when
`md`, the end of the first paragraph break, then `sorted(set(...))`. -/
def loopBoundaries (t : List Char) (md : Bool) (start e : Nat) : List Nat :=
  let sb := findSentenceBoundaries t start e
  let mb := if md then findMarkdownBoundaries t start e else []
  let pb :=
    match (paraScan (slice t start e) start 0).head? with
    | some p => [p]
    | none => []
  sortedDedup (sb ++ mb ++ pb)

/-- The main `while start < len(text)` loop of `chunk_text`
(lines 88-154), with fuel; `none` means the fuel ran out. -/
def chunkLoop (t : List Char) (cs co : Nat) (md : Bool) :
    Nat → Nat → List (List Char) → Option (List (List Char))
  | 0, _, _ => none
  | fuel + 1, start, acc =>
    if t.length ≤ start then some acc
    else
      let te := min (start + cs) t.length
      if t.length ≤ te then some (acc ++ [slice t start t.length])
      else
        let bs := loopBoundaries t md start (te + co)
        let b0 := bestEndLoop start te co bs te
        let bestE := if b0 ≤ start then te else b0
        let ck := pyStrip (slice t start bestE)
        let acc1 := if ck.isEmpty then acc else acc ++ [ck]
        let ovStart := max start (bestE - co)
        let ovBs := bs.filter (fun b => decide (ovStart ≤ b) && decide (b < bestE))
        let start1 :=
          match ovBs.getLast? with
          | some b => b
          | none => max (start + 1) (bestE - co)
        if t.length ≤ start1 then some acc1
        else
          let start2 := if start1 = bestE && bestE < t.length then bestE else start1
          chunkLoop t cs co md fuel start2 acc1

/-- The `chunk_size < 200` fixed-width fallback loop of `chunk_text`
(lines 76-82), with fuel.  (Nat subtraction in `e - co` agrees with the
Python int subtraction whenever `co < cs`, the domain of every claim.) -/
def simpleLoop (t : List Char) (cs co : Nat) :
    Nat → Nat → List (List Char) → Option (List (List Char))
  | 0, _, _ => none
  | fuel + 1, start, acc =>
    if t.length ≤ start then some acc
    else
      let e := min (start + cs) t.length
      let acc1 := acc ++ [slice t start e]
      let start1 := if e < t.length then e - co else e
      simpleLoop t cs co fuel start1 acc1

/-- `chunk_text(text, chunk_size, chunk_overlap)` with fuel
`len(text) + 1`; `none` means the fuel was insufficient. -/
def chunkTextF (t : List Char) (cs co : Nat) : Option (List (List Char)) :=
  if t.isEmpty then some []
  else if cs < 200 then simpleLoop t cs co (t.length + 1) 0 []
  else chunkLoop t cs co (isMarkdown t) (t.length + 1) 0 []

/-- `chunk_text(text, chunk_size, chunk_overlap)`. -/
def chunk_text (t : List Char) (cs co : Nat) : List (List Char) :=
  (chunkTextF t cs co).getD []


/-!
## Loaders (`loaders.py`)
-/

/-- The slice of the `pathlib.Path` interface used by `loaders.py`:
the path string (`str(fp)`), the final component (`.name`) and the
extension (`.suffix`). -/
structure PyPath where
  pathStr : String
  name : String
  suffix : String
deriving DecidableEq

/-- A loader document dict: `content`, `filename`, `content_type`,
`document_id` (attached by `load_files`), and the optional `error` key
(present only when `load_files` catches an exception). -/
structure PyDoc where
  content : String
  filename : String
  contentType : String
  documentId : String
  error : Option String
deriving DecidableEq

/-- Modelled from the spec (§6 "File storage", §4.1: raw file-format
decoding is out of scope, specified only at the interface "given a file,
produce extracted text"): the external world seen by the loaders —
`Path.read_text` outcomes, availability of the optional `pypdf` /
`python-docx` libraries, and the text their extractors would produce
(`.error` = the extraction raised with that message). -/
structure LoadEnv where
  readText : PyPath → Except String String
  pdfAvailable : Bool
  pdfExtract : PyPath → Except String String
  docxAvailable : Bool
  docxExtract : PyPath → Except String String

/-- Python `str.lower()` (ASCII; the suffixes compared here are ASCII). -/
def lowerS (s : String) : String := String.mk (s.data.map Char.toLower)

/-- `load_text_file(file_path)`: `Path.read_text` — may raise. -/
def load_text_file (env : LoadEnv) (p : PyPath) : Except String String :=
  env.readText p

/-- `load_pdf_file(file_path)`: placeholder when `pypdf` is missing,
placeholder naming the exception when extraction fails; never raises. -/
def load_pdf_file (env : LoadEnv) (p : PyPath) : String :=
  if env.pdfAvailable = false then "[PDF support not available: pypdf library not installed]"
  else
    match env.pdfExtract p with
    | .ok t => t
    | .error e => "[Error reading PDF " ++ p.name ++ ": " ++ e ++ "]"

/-- `load_docx_file(file_path)`. -/
def load_docx_file (env : LoadEnv) (p : PyPath) : String :=
  if env.docxAvailable = false then "[DOCX support not available: python-docx library not installed]"
  else
    match env.docxExtract p with
    | .ok t => t
    | .error e => "[Error reading DOCX " ++ p.name ++ ": " ++ e ++ "]"

/-- `_infer_content_type(file_path)`: extension-to-content-type mapping. -/
def inferContentType (p : PyPath) : String :=
  let sfx := lowerS p.suffix
  if sfx = ".txt" then "text/plain"
  else if sfx = ".md" then "text/markdown"
  else if sfx = ".markdown" then "text/markdown"
  else if sfx = ".pdf" then "application/pdf"
  else if sfx = ".docx" then "application/vnd.openxmlformats-officedocument.wordprocessingml.document"
  else if sfx = ".doc" then "application/msword"
  else "application/octet-stream"

/-- `load_file(file_path)`: dispatch on the (lowercased) extension.
A raising `read_text` escapes (`.error`) only in the `.txt` branch; the
markdown branch and the unknown-extension fallback catch it themselves,
and the PDF/DOCX loaders never raise. -/
def load_file (env : LoadEnv) (p : PyPath) : Except String PyDoc :=
  if lowerS p.suffix = ".txt" then
    match load_text_file env p with
    | .ok c => .ok ⟨c, p.name, inferContentType p, "", none⟩
    | .error e => .error e
  else if lowerS p.suffix = ".md" ∨ lowerS p.suffix = ".markdown" then
    .ok ⟨(match load_text_file env p with
          | .ok c => c
          | .error e => "[Error reading Markdown " ++ p.name ++ ": " ++ e ++ "]"),
         p.name, inferContentType p, "", none⟩
  else if lowerS p.suffix = ".pdf" then
    .ok ⟨load_pdf_file env p, p.name, inferContentType p, "", none⟩
  else if lowerS p.suffix = ".docx" then
    .ok ⟨load_docx_file env p, p.name, inferContentType p, "", none⟩
  else
    match load_text_file env p with
    | .ok c =>
      .ok ⟨c, p.name,
           if inferContentType p = "application/octet-stream" then "text/plain"
           else inferContentType p, "", none⟩
    | .error _ =>
      .ok ⟨"[Unsupported file type: " ++ lowerS p.suffix ++
             ". Supported formats: .txt, .md, .pdf, .docx]",
           p.name, inferContentType p, "", none⟩

/-- `load_files(file_paths)`: one document per path, in order; an
exception escaping `load_file` becomes a placeholder document with the
`error` key populated, and the loop continues. -/
def load_files (env : LoadEnv) (paths : List PyPath) : List PyDoc :=
  paths.map fun p =>
    match load_file env p with
    | .ok d => { d with documentId := p.pathStr }
    | .error e =>
      ⟨"[Error loading " ++ p.name ++ ": " ++ e ++ "]", p.name, "text/plain", p.pathStr, some e⟩

/-!
## `chunk_documents` and the RAG service (`service.py`)
-/

/-- A chunk dict produced by `chunk_documents` (its `metadata` key is
always the empty dict in this pipeline and is omitted). -/
structure PyChunk where
  content : String
  documentId : String
  filename : String
  chunkIndex : Nat
deriving DecidableEq

/-- `chunk_text` on a Python string (its sequence of code points). -/
def chunk_textS (s : String) (cs co : Nat) : List String :=
  (chunk_text s.data cs co).map fun l => String.mk l

/-- `chunk_documents(documents)`: skip falsy (empty) content, chunk with
the default parameters `chunk_size = 1000, chunk_overlap = 200`, assign
`chunk_index` sequentially from 0 per document. -/
def chunk_documents (docs : List PyDoc) : List PyChunk :=
  (docs.map fun d =>
    if d.content.isEmpty then []
    else ((chunk_textS d.content 1000 200).enum).map fun ic =>
      ⟨ic.2, d.documentId, d.filename, ic.1⟩).flatten

/-- Embedding vectors.  The float entries are never inspected by any
claim; they are carried as opaque integer lists. -/
abbrev Vec := List Int

/-- A record of the Chroma collection: id, embedding, document text, and
the scalar metadata fields written by `ingest_files` (the optional
`start`/`end` fields are never set by this pipeline and are omitted
rather than stored as null). -/
structure ChromaRecord where
  rid : String
  embedding : Vec
  document : String
  sessionId : String
  documentId : String
  filename : String
  chunkIndex : Nat
deriving DecidableEq

/-- The `where` clause built by `retrieve`: always a `session_id` equality
predicate, optionally a `filename` equality predicate. -/
structure WhereC where
  sessionId : String
  filename : Option String
deriving DecidableEq

/-- Modelled from the spec (§4.4: the vector store is external, reached
through `collection.query`'s metadata filter): a record matches the
where-clause iff its metadata equals every key present in the clause. -/
def matchesWhere (w : WhereC) (r : ChromaRecord) : Bool :=
  r.sessionId = w.sessionId &&
    (match w.filename with
     | none => true
     | some f => r.filename = f)

/-- Modelled from the spec (§4.4, §6 "Vector store backend"):
`collection.query` — nearest-neighbour search over the records matching
the where-clause, returning at most `n_results`.  The distance ranking is
external; it is abstracted as `rank` applied to the filtered records (the
soundness theorems assume only that `rank` returns elements of its
input). -/
def chromaQuery (store : List ChromaRecord) (w : WhereC) (k : Nat)
    (rank : Vec → List ChromaRecord → List ChromaRecord) (qv : Vec) : List ChromaRecord :=
  (rank qv (store.filter (matchesWhere w))).take k

/-- Python `str.strip()` on a string. -/
def pyStripS (s : String) : String := String.mk (pyStrip s.data)

/-- `RAGService._embed_texts(texts)`: the credential check comes first
(before the empty-batch check and before any remote call), then one
batched call to the external embeddings endpoint (the oracle `api`).
Returns the outcome and the number of remote calls dispatched. -/
def embedTexts (configured : Bool) (api : List String → List Vec) (texts : List String) :
    Except String (List Vec) × Nat :=
  if !configured then
    (.error "OPENAI_API_KEY is not configured; cannot generate embeddings.", 0)
  else if texts.isEmpty then (.ok [], 0)
  else (.ok (api texts), 1)

/-- The observable outcome of one `retrieve` call: its result, how many
remote embedding calls were dispatched, and every `(where, n_results)`
query issued to the vector store. -/
structure RetrieveOut where
  results : Except String (List ChromaRecord)
  embedCalls : Nat
  queries : List (WhereC × Nat)

/-- `RAGService.retrieve(session_id, query, top_k, filename)`.
(The Python indexes `_embed_texts(...)[0]`; the model totalises that with
`headD` — the query vector is only handed to the external ranking.) -/
def retrieve (configured : Bool) (api : List String → List Vec)
    (store : List ChromaRecord) (rank : Vec → List ChromaRecord → List ChromaRecord)
    (sessionId : String) (query : String) (topK : Int) (filename : Option String) :
    RetrieveOut :=
  if (pyStripS query).isEmpty then ⟨.ok [], 0, []⟩
  else
    let k : Int := max 1 (min topK 10)
    match embedTexts configured api [pyStripS query] with
    | (.error e, n) => ⟨.error e, n, []⟩
    | (.ok embs, n) =>
      let qv := embs.headD []
      let w : WhereC :=
        ⟨sessionId,
          match filename with
          | some f => if f.isEmpty then none else some f
          | none => none⟩
      ⟨.ok (chromaQuery store w k.toNat rank qv), n, [(w, k.toNat)]⟩

/-- The summary dict returned by `ingest_files`. -/
structure IngestSummary where
  sessionId : String
  documentsLoaded : Nat
  chunksCreated : Nat
  stored : Nat
deriving DecidableEq

/-- The observable outcome of one `ingest_files` call: its result, how
many remote embedding calls were dispatched, and the records added to the
vector store (`collection.add`). -/
structure IngestOut where
  result : Except String IngestSummary
  embedCalls : Nat
  added : List ChromaRecord

/-- `RAGService.ingest_files(session_id, file_paths)`: load → chunk →
embed → build one record per chunk with
`id = session_id:doc_id:chunk_index:i` → add.  An embedding failure
aborts before any store mutation. -/
def ingest_files (configured : Bool) (api : List String → List Vec) (env : LoadEnv)
    (sessionId : String) (paths : List PyPath) : IngestOut :=
  let documents := load_files env paths
  let chunks := chunk_documents documents
  let contents := chunks.map fun c => c.content
  match embedTexts configured api contents with
  | (.error e, n) => ⟨.error e, n, []⟩
  | (.ok embs, n) =>
    let recs := (chunks.enum).map fun ic =>
      let c := ic.2
      let docId := if c.documentId.isEmpty then "unknown" else c.documentId
      ({ rid := sessionId ++ ":" ++ docId ++ ":" ++ toString c.chunkIndex ++ ":" ++ toString ic.1,
         embedding := (embs[ic.1]?).getD [],
         document := c.content,
         sessionId := sessionId,
         documentId := docId,
         filename := c.filename,
         chunkIndex := c.chunkIndex } : ChromaRecord)
    ⟨.ok ⟨sessionId, documents.length, chunks.length, recs.length⟩, n,
      if recs.isEmpty then [] else recs⟩

/-- The C1 failing input: 100 × `'a'`, then `". "`, then 150 × `'b'`;
with `chunk_size = 200`, `chunk_overlap = 0` the unique candidate
boundary is 102. -/
def textC1 : List Char := List.replicate 100 'a' ++ '.' :: ' ' :: List.replicate 150 'b'

/-!
## Helper lemmas
-/

theorem mem_of_getLastQ {α : Type} {l : List α} {a : α} (h : l.getLast? = some a) : a ∈ l := by
  induction l with
  | nil => simp at h
  | cons b r ih =>
    cases r with
    | nil =>
      simp only [List.getLast?_singleton, Option.some.injEq] at h
      simp [h]
    | cons c s =>
      rw [List.getLast?_cons_cons] at h
      exact List.mem_cons_of_mem _ (ih h)

theorem natDist_self (a : Nat) : natDist a a = 0 := by
  simp [natDist]

/-- The boundary-selection loop started at `best = target_end` never moves:
any candidate would need distance `< 0` from `target_end`. -/
theorem bestEndLoop_self (start te co : Nat) :
    ∀ bs, bestEndLoop start te co bs te = te := by
  intro bs
  induction bs with
  | nil => rfl
  | cons b r ih =>
    rw [bestEndLoop]
    rw [natDist_self]
    split_ifs with h1 h2 <;> simp_all

theorem slice_length (t : List Char) (a b : Nat) :
    (slice t a b).length = min (b - a) (t.length - a) := by
  simp [slice]

theorem slice_length_le (t : List Char) (a b : Nat) :
    (slice t a b).length ≤ b - a := by
  rw [slice_length]; omega

theorem slice_ne_nil {t : List Char} {a b : Nat} (h1 : a < t.length) (h2 : a < b) :
    slice t a b ≠ [] := by
  have : 0 < (slice t a b).length := by rw [slice_length]; omega
  exact List.ne_nil_of_length_pos this

theorem pyStrip_length_le (l : List Char) : (pyStrip l).length ≤ l.length := by
  unfold pyStrip
  calc ((l.dropWhile isPySpace).reverse.dropWhile isPySpace).reverse.length
      = ((l.dropWhile isPySpace).reverse.dropWhile isPySpace).length := by
        simp
    _ ≤ (l.dropWhile isPySpace).reverse.length := (List.dropWhile_suffix _).length_le
    _ = (l.dropWhile isPySpace).length := by simp
    _ ≤ l.length := (List.dropWhile_suffix _).length_le

/-- Simplified successor-step equation of the main loop: since
`bestEndLoop` always returns `target_end` (`bestEndLoop_self`), the chunk
end is always the hard cut `start + cs`, and the `start == best_end`
safety reassignment is the identity. -/
theorem chunkLoop_succ (t : List Char) (cs co : Nat) (md : Bool)
    (fuel start : Nat) (acc : List (List Char)) :
    chunkLoop t cs co md (fuel + 1) start acc =
      if t.length ≤ start then some acc
      else if t.length ≤ start + cs then some (acc ++ [slice t start t.length])
      else
        (let te := start + cs
         let bs := loopBoundaries t md start (te + co)
         let ck := pyStrip (slice t start te)
         let acc1 := if ck.isEmpty then acc else acc ++ [ck]
         let start1 :=
           match (bs.filter (fun b => decide (max start (te - co) ≤ b) && decide (b < te))).getLast? with
           | some b => b
           | none => max (start + 1) (te - co)
         if t.length ≤ start1 then some acc1
         else chunkLoop t cs co md fuel start1 acc1) := by
  rw [chunkLoop]
  by_cases h0 : t.length ≤ start
  · simp [h0]
  · simp only [if_neg h0]
    by_cases h1 : t.length ≤ start + cs
    · have hte : min (start + cs) t.length = t.length := by omega
      simp [hte, h1]
    · have hte : min (start + cs) t.length = start + cs := by omega
      have hle : ¬ t.length ≤ min (start + cs) t.length := by omega
      simp only [if_neg hle, if_neg h1, hte]
      rw [bestEndLoop_self]
      have hb : ¬ start + cs ≤ start ∨ cs = 0 := by omega
      by_cases hcs : cs = 0
      · -- degenerate `cs = 0`: `bestE = if te ≤ start then te else te = te` anyway
        simp only [hcs, Nat.add_zero]
        simp only [ite_self]
        cases hml : (((loopBoundaries t md start (start + co)).filter
            (fun b => decide (max start (start - co) ≤ b) && decide (b < start))).getLast?) with
        | none =>
          simp only [hml]
          split_ifs with h2 h3 <;> simp_all
        | some b =>
          simp only [hml]
          split_ifs with h2 h3 <;> simp_all
      · have hnle : ¬ start + cs ≤ start := by omega
        simp only [if_neg hnle]
        cases hml : (((loopBoundaries t md start (start + cs + co)).filter
            (fun b => decide (max start (start + cs - co) ≤ b) && decide (b < start + cs))).getLast?) with
        | none =>
          simp only [hml]
          split_ifs with h2 h3 <;> simp_all
        | some b =>
          simp only [hml]
          split_ifs with h2 h3 <;> simp_all

/-!
## C2: termination of `chunk_text`
-/

/-- Simplified successor-step equation of the fixed-width fallback loop. -/
theorem simpleLoop_succ (t : List Char) (cs co : Nat) (fuel start : Nat)
    (acc : List (List Char)) :
    simpleLoop t cs co (fuel + 1) start acc =
      if t.length ≤ start then some acc
      else if start + cs < t.length then
        simpleLoop t cs co fuel (start + cs - co) (acc ++ [slice t start (start + cs)])
      else simpleLoop t cs co fuel t.length (acc ++ [slice t start t.length]) := by
  rw [simpleLoop]
  by_cases h0 : t.length ≤ start
  · simp [h0]
  · simp only [if_neg h0]
    by_cases h1 : start + cs < t.length
    · have he : min (start + cs) t.length = start + cs := by omega
      have he2 : min (start + cs) t.length < t.length := by omega
      rw [he, if_pos h1, if_pos (he ▸ he2)]
    · have he : min (start + cs) t.length = t.length := by omega
      have he2 : ¬ min (start + cs) t.length < t.length := by omega
      rw [he, if_neg h1, if_neg (by omega : ¬ t.length < t.length)]

theorem simpleLoop_isSome {t : List Char} {cs co : Nat} (hco : co < cs) :
    ∀ fuel start acc, t.length - start < fuel →
      (simpleLoop t cs co fuel start acc).isSome := by
  intro fuel
  induction fuel with
  | zero => intro start acc h; exact absurd h (Nat.not_lt_zero _)
  | succ n ih =>
    intro start acc h
    rw [simpleLoop_succ]
    by_cases h0 : t.length ≤ start
    · simp [h0]
    · simp only [if_neg h0]
      by_cases h1 : start + cs < t.length
      · simp only [if_pos h1]
        exact ih _ _ (by omega)
      · simp only [if_neg h1]
        cases n with
        | zero => omega
        | succ m =>
          rw [simpleLoop_succ]
          simp

theorem chunkLoop_isSome {t : List Char} {cs co : Nat} {md : Bool} (hco : co < cs) :
    ∀ fuel start acc, t.length - start < fuel →
      (chunkLoop t cs co md fuel start acc).isSome := by
  intro fuel
  induction fuel with
  | zero => intro start acc h; exact absurd h (Nat.not_lt_zero _)
  | succ n ih =>
    intro start acc h
    rw [chunkLoop_succ]
    by_cases h0 : t.length ≤ start
    · simp [h0]
    · simp only [if_neg h0]
      by_cases h1 : t.length ≤ start + cs
      · simp [h1]
      · simp only [if_neg h1]
        cases hml : (((loopBoundaries t md start (start + cs + co)).filter
            (fun b => decide (max start (start + cs - co) ≤ b) && decide (b < start + cs))).getLast?) with
        | some b =>
          simp only [hml]
          have hbmem := mem_of_getLastQ hml
          have hb : max start (start + cs - co) ≤ b ∧ b < start + cs := by
            have := (List.mem_filter.mp hbmem).2
            simp only [Bool.and_eq_true, decide_eq_true_eq] at this
            exact this
          have hgt : start < b := by omega
          by_cases h2 : t.length ≤ b
          · simp [h2]
          · simp only [if_neg h2]
            exact ih b _ (by omega)
        | none =>
          simp only [hml]
          by_cases h2 : t.length ≤ max (start + 1) (start + cs - co)
          · simp [h2]
          · simp only [if_neg h2]
            have hmax : start + 1 ≤ max (start + 1) (start + cs - co) := le_max_left _ _
            have hsub : t.length - max (start + 1) (start + cs - co) ≤ t.length - (start + 1) :=
              Nat.sub_le_sub_left hmax _
            exact ih _ _ (by omega)

/-- **C2** (confirmed): for every text and all parameters with
`chunk_overlap < chunk_size`, `chunk_text` terminates: with fuel
`len(text) + 1` neither loop exhausts its fuel, because the cursor
strictly advances on every iteration (in the boundary path the resume
point is at least `max(start+1, best_end - overlap) > start`, and any
overlap boundary chosen is `≥ best_end - overlap > start`; in the
fixed-width fallback the cursor advances by `chunk_size - overlap ≥ 1`). -/
theorem chunk_text_terminates (t : List Char) (cs co : Nat) (hco : co < cs) :
    (chunkTextF t cs co).isSome := by
  unfold chunkTextF
  by_cases h0 : t.isEmpty
  · simp [h0]
  · simp only [h0, Bool.false_eq_true, if_false]
    by_cases h1 : cs < 200
    · simp only [if_pos h1]
      exact simpleLoop_isSome hco _ 0 [] (by omega)
    · simp only [if_neg h1]
      exact chunkLoop_isSome hco _ 0 [] (by omega)

/-- Witness for C2 at a concrete input. -/
theorem chunk_text_terminates_witness :
    (chunkTextF ['a', 'b', 'c'] 1000 200).isSome :=
  chunk_text_terminates ['a', 'b', 'c'] 1000 200 (by decide)

/-!
## C6: every chunk has length at most `chunk_size`
-/

theorem simpleLoop_len_bound {t : List Char} {cs co : Nat} :
    ∀ fuel start acc r, (∀ c ∈ acc, c.length ≤ cs) →
      simpleLoop t cs co fuel start acc = some r → ∀ c ∈ r, c.length ≤ cs := by
  intro fuel
  induction fuel with
  | zero => intro start acc r hacc h; simp [simpleLoop] at h
  | succ n ih =>
    intro start acc r hacc h
    rw [simpleLoop] at h
    by_cases h0 : t.length ≤ start
    · simp only [if_pos h0, Option.some.injEq] at h
      exact h ▸ hacc
    · simp only [if_neg h0] at h
      refine ih _ _ _ ?_ h
      intro c hc
      rcases List.mem_append.mp hc with hc | hc
      · exact hacc c hc
      · have hc' : c = slice t start (min (start + cs) t.length) := by simpa using hc
        subst hc'
        have := slice_length_le t start (min (start + cs) t.length)
        omega

theorem chunkLoop_len_bound {t : List Char} {cs co : Nat} {md : Bool} :
    ∀ fuel start acc r, (∀ c ∈ acc, c.length ≤ cs) →
      chunkLoop t cs co md fuel start acc = some r → ∀ c ∈ r, c.length ≤ cs := by
  intro fuel
  induction fuel with
  | zero => intro start acc r hacc h; simp [chunkLoop] at h
  | succ n ih =>
    intro start acc r hacc h
    rw [chunkLoop_succ] at h
    by_cases h0 : t.length ≤ start
    · simp only [if_pos h0, Option.some.injEq] at h
      exact h ▸ hacc
    · simp only [if_neg h0] at h
      by_cases h1 : t.length ≤ start + cs
      · simp only [if_pos h1, Option.some.injEq] at h
        subst h
        intro c hc
        rcases List.mem_append.mp hc with hc | hc
        · exact hacc c hc
        · have hc' : c = slice t start t.length := by simpa using hc
          subst hc'
          have := slice_length_le t start t.length
          omega
      · simp only [if_neg h1] at h
        have hacc1 : ∀ c ∈ (if (pyStrip (slice t start (start + cs))).isEmpty then acc
            else acc ++ [pyStrip (slice t start (start + cs))]), c.length ≤ cs := by
          intro c hc
          by_cases hck : (pyStrip (slice t start (start + cs))).isEmpty
          · rw [if_pos hck] at hc; exact hacc c hc
          · rw [if_neg hck] at hc
            rcases List.mem_append.mp hc with hc | hc
            · exact hacc c hc
            · have hc' : c = pyStrip (slice t start (start + cs)) := by simpa using hc
              subst hc'
              have hl1 := pyStrip_length_le (slice t start (start + cs))
              have hl2 := slice_length_le t start (start + cs)
              omega
        cases hml : (((loopBoundaries t md start (start + cs + co)).filter
            (fun b => decide (max start (start + cs - co) ≤ b) && decide (b < start + cs))).getLast?) with
        | some b =>
          simp only [hml] at h
          by_cases h2 : t.length ≤ b
          · simp only [if_pos h2, Option.some.injEq] at h
            exact h ▸ hacc1
          · simp only [if_neg h2] at h
            exact ih _ _ _ hacc1 h
        | none =>
          simp only [hml] at h
          by_cases h2 : t.length ≤ max (start + 1) (start + cs - co)
          · simp only [if_pos h2, Option.some.injEq] at h
            exact h ▸ hacc1
          · simp only [if_neg h2] at h
            exact ih _ _ _ hacc1 h

/-- **C6** (confirmed): for `chunk_overlap < chunk_size`, every string
returned by `chunk_text` has length at most `chunk_size`, before as well
as after trimming.  (The boundary-search window never produces a longer
chunk because the selection loop always ends the chunk at `target_end`;
the final remainder satisfies `len - start ≤ chunk_size`.) -/
theorem chunk_text_length_le (t : List Char) (cs co : Nat) (hco : co < cs) :
    ∀ c ∈ chunk_text t cs co, c.length ≤ cs ∧ (pyStrip c).length ≤ cs := by
  intro c hc
  have hmain : c.length ≤ cs := by
    unfold chunk_text chunkTextF at hc
    by_cases h0 : t.isEmpty
    · simp [h0] at hc
    · simp only [h0, Bool.false_eq_true, if_false] at hc
      by_cases h1 : cs < 200
      · simp only [if_pos h1] at hc
        cases hval : simpleLoop t cs co (t.length + 1) 0 [] with
        | none => rw [hval] at hc; simp at hc
        | some r =>
          rw [hval] at hc
          exact simpleLoop_len_bound _ _ _ _ (by simp) hval c hc
      · simp only [if_neg h1] at hc
        cases hval : chunkLoop t cs co (isMarkdown t) (t.length + 1) 0 [] with
        | none => rw [hval] at hc; simp at hc
        | some r =>
          rw [hval] at hc
          exact chunkLoop_len_bound _ _ _ _ (by simp) hval c hc
  exact ⟨hmain, le_trans (pyStrip_length_le c) hmain⟩

/-- Witness for C6 at a concrete input: the single chunk of `"ab"`. -/
theorem chunk_text_length_le_witness :
    (['a', 'b'] : List Char).length ≤ 210 ∧ (pyStrip ['a', 'b']).length ≤ 210 :=
  chunk_text_length_le ['a', 'b'] 210 10 (by omega) ['a', 'b'] (by decide)

/-!
## C3: which chunks are non-blank
-/

theorem dropWhile_headQ_false {p : Char → Bool} {l : List Char} {c : Char}
    (h : (l.dropWhile p).head? = some c) : p c = false := by
  have h2 := List.head?_dropWhile_not p l
  rw [h] at h2
  exact h2

theorem dropWhile_eq_self_of_head {p : Char → Bool} {l : List Char} {c : Char}
    (h : l.head? = some c) (hc : p c = false) : l.dropWhile p = l := by
  cases l with
  | nil => simp at h
  | cons a r =>
    simp only [List.head?_cons, Option.some.injEq] at h
    subst h
    simp [List.dropWhile_cons, hc]

theorem dropWhile_getLastQ {p : Char → Bool} {l : List Char}
    (h : l.dropWhile p ≠ []) : (l.dropWhile p).getLast? = l.getLast? := by
  obtain ⟨pre, hpre⟩ := List.dropWhile_suffix (l := l) p
  conv_rhs => rw [← hpre]
  rw [List.getLast?_append_of_ne_nil _ h]

theorem pyStrip_idem (l : List Char) : pyStrip (pyStrip l) = pyStrip l := by
  by_cases h0 : pyStrip l = []
  · rw [h0]; rfl
  · have hm : pyStrip l = ((l.dropWhile isPySpace).reverse.dropWhile isPySpace).reverse := rfl
    have hBne : (l.dropWhile isPySpace).reverse.dropWhile isPySpace ≠ [] := by
      intro h
      exact h0 (by rw [hm, h]; rfl)
    obtain ⟨c, hc⟩ : ∃ c, (pyStrip l).head? = some c := by
      cases hh : (pyStrip l).head? with
      | none =>
        exfalso
        apply h0
        cases hll : pyStrip l with
        | nil => rfl
        | cons x xs => rw [hll] at hh; simp at hh
      | some c => exact ⟨c, rfl⟩
    have hhead : (pyStrip l).head? = (l.dropWhile isPySpace).head? := by
      rw [hm, List.head?_reverse, dropWhile_getLastQ hBne, List.getLast?_reverse]
    have hcfalse : isPySpace c = false := dropWhile_headQ_false (hhead ▸ hc)
    have hfix1 : (pyStrip l).dropWhile isPySpace = pyStrip l :=
      dropWhile_eq_self_of_head hc hcfalse
    have hrev : (pyStrip l).reverse = (l.dropWhile isPySpace).reverse.dropWhile isPySpace := by
      rw [hm, List.reverse_reverse]
    obtain ⟨d, hd⟩ : ∃ d, ((l.dropWhile isPySpace).reverse.dropWhile isPySpace).head? = some d := by
      cases hh : ((l.dropWhile isPySpace).reverse.dropWhile isPySpace).head? with
      | none =>
        exfalso
        apply hBne
        cases hll : (l.dropWhile isPySpace).reverse.dropWhile isPySpace with
        | nil => rfl
        | cons x xs => rw [hll] at hh; simp at hh
      | some d => exact ⟨d, rfl⟩
    have hdfalse : isPySpace d = false := dropWhile_headQ_false hd
    have hfix2 : ((l.dropWhile isPySpace).reverse.dropWhile isPySpace).dropWhile isPySpace =
        (l.dropWhile isPySpace).reverse.dropWhile isPySpace :=
      dropWhile_eq_self_of_head hd hdfalse
    conv_lhs => rw [pyStrip, hfix1, hrev, hfix2]
    rw [← hm]

theorem pyStrip_ne_nil_of_self {c : List Char} (h : pyStrip c ≠ []) : c ≠ [] := by
  intro hc
  exact h (by rw [hc]; rfl)

theorem simpleLoop_chunks_ne_nil {t : List Char} {cs co : Nat} (hcs : 0 < cs) :
    ∀ fuel start acc r, (∀ c ∈ acc, c ≠ []) →
      simpleLoop t cs co fuel start acc = some r → ∀ c ∈ r, c ≠ [] := by
  intro fuel
  induction fuel with
  | zero => intro start acc r hacc h; simp [simpleLoop] at h
  | succ n ih =>
    intro start acc r hacc h
    rw [simpleLoop_succ] at h
    by_cases h0 : t.length ≤ start
    · simp only [if_pos h0, Option.some.injEq] at h
      exact h ▸ hacc
    · simp only [if_neg h0] at h
      by_cases h1 : start + cs < t.length
      · simp only [if_pos h1] at h
        refine ih _ _ _ ?_ h
        intro c hc
        rcases List.mem_append.mp hc with hc | hc
        · exact hacc c hc
        · have hc' : c = slice t start (start + cs) := by simpa using hc
          subst hc'
          exact slice_ne_nil (by omega) (by omega)
      · simp only [if_neg h1] at h
        refine ih _ _ _ ?_ h
        intro c hc
        rcases List.mem_append.mp hc with hc | hc
        · exact hacc c hc
        · have hc' : c = slice t start t.length := by simpa using hc
          subst hc'
          exact slice_ne_nil (by omega) (by omega)

theorem chunkLoop_chunks {t : List Char} {cs co : Nat} {md : Bool} :
    ∀ fuel start acc r, (∀ c ∈ acc, pyStrip c ≠ []) →
      chunkLoop t cs co md fuel start acc = some r →
      (∀ c ∈ r, c ≠ []) ∧ (∀ c ∈ r.dropLast, pyStrip c ≠ []) := by
  intro fuel
  induction fuel with
  | zero => intro start acc r hacc h; simp [chunkLoop] at h
  | succ n ih =>
    intro start acc r hacc h
    rw [chunkLoop_succ] at h
    by_cases h0 : t.length ≤ start
    · simp only [if_pos h0, Option.some.injEq] at h
      subst h
      exact ⟨fun c hc => pyStrip_ne_nil_of_self (hacc c hc),
        fun c hc => hacc c ((List.dropLast_sublist _).mem hc)⟩
    · simp only [if_neg h0] at h
      by_cases h1 : t.length ≤ start + cs
      · simp only [if_pos h1, Option.some.injEq] at h
        subst h
        constructor
        · intro c hc
          rcases List.mem_append.mp hc with hc | hc
          · exact pyStrip_ne_nil_of_self (hacc c hc)
          · have hc' : c = slice t start t.length := by simpa using hc
            subst hc'
            exact slice_ne_nil (by omega) (by omega)
        · intro c hc
          rw [List.dropLast_concat] at hc
          exact hacc c hc
      · simp only [if_neg h1] at h
        have hacc1 : ∀ c ∈ (if (pyStrip (slice t start (start + cs))).isEmpty then acc
            else acc ++ [pyStrip (slice t start (start + cs))]), pyStrip c ≠ [] := by
          intro c hc
          by_cases hck : (pyStrip (slice t start (start + cs))).isEmpty
          · rw [if_pos hck] at hc; exact hacc c hc
          · rw [if_neg hck] at hc
            rcases List.mem_append.mp hc with hc | hc
            · exact hacc c hc
            · have hc' : c = pyStrip (slice t start (start + cs)) := by simpa using hc
              subst hc'
              rw [pyStrip_idem]
              intro hnil
              rw [hnil] at hck
              exact hck rfl
        cases hml : (((loopBoundaries t md start (start + cs + co)).filter
            (fun b => decide (max start (start + cs - co) ≤ b) && decide (b < start + cs))).getLast?) with
        | some b =>
          simp only [hml] at h
          by_cases h2 : t.length ≤ b
          · simp only [if_pos h2, Option.some.injEq] at h
            subst h
            exact ⟨fun c hc => pyStrip_ne_nil_of_self (hacc1 c hc),
              fun c hc => hacc1 c ((List.dropLast_sublist _).mem hc)⟩
          · simp only [if_neg h2] at h
            exact ih _ _ _ hacc1 h
        | none =>
          simp only [hml] at h
          by_cases h2 : t.length ≤ max (start + 1) (start + cs - co)
          · simp only [if_pos h2, Option.some.injEq] at h
            subst h
            exact ⟨fun c hc => pyStrip_ne_nil_of_self (hacc1 c hc),
              fun c hc => hacc1 c ((List.dropLast_sublist _).mem hc)⟩
          · simp only [if_neg h2] at h
            exact ih _ _ _ hacc1 h

/-- **C3 counterexample**: for the non-empty single-space text with
`chunk_overlap < chunk_size`, `chunk_text` returns the final remainder
`" "` untrimmed, which is empty after trimming — refuting the claim that
every returned chunk is non-empty after whitespace trimming. -/
theorem chunk_text_blank_chunk_cex :
    ([' '] : List Char) ≠ [] ∧ (200 : Nat) < 1000 ∧
      chunk_text [' '] 1000 200 = [[' ']] ∧ pyStrip [' '] = [] := by
  refine ⟨by decide, by decide, by decide, by decide⟩

/-- **C3 amended** (proved): for every non-empty text with
`chunk_overlap < chunk_size`, every returned chunk is a non-empty string,
and in the boundary-search path (`chunk_size ≥ 200`) every chunk except
the final remainder is non-empty after trimming; the final remainder (and
the fixed-width-fallback chunks) are appended without trimming and may be
whitespace-only. -/
theorem chunk_text_chunks_amended (t : List Char) (cs co : Nat)
    (ht : t ≠ []) (hco : co < cs) :
    (∀ c ∈ chunk_text t cs co, c ≠ []) ∧
      (200 ≤ cs → ∀ c ∈ (chunk_text t cs co).dropLast, pyStrip c ≠ []) := by
  unfold chunk_text chunkTextF
  have hemp : t.isEmpty = false := by
    cases t with
    | nil => exact absurd rfl ht
    | cons a r => rfl
  simp only [hemp, Bool.false_eq_true, if_false]
  by_cases h1 : cs < 200
  · simp only [if_pos h1]
    cases hval : simpleLoop t cs co (t.length + 1) 0 [] with
    | none => simp
    | some r =>
      simp only [Option.getD_some]
      refine ⟨simpleLoop_chunks_ne_nil (by omega) _ 0 [] r (by simp) hval, ?_⟩
      intro h200
      omega
  · simp only [if_neg h1]
    cases hval : chunkLoop t cs co (isMarkdown t) (t.length + 1) 0 [] with
    | none => simp
    | some r =>
      simp only [Option.getD_some]
      have := chunkLoop_chunks _ 0 [] r (by simp) hval
      exact ⟨this.1, fun _ => this.2⟩

/-- Witness for the amended C3 at a concrete input: the single chunk of
`"ab"` is non-empty, and the (empty) `dropLast` condition holds. -/
theorem chunk_text_chunks_amended_witness :
    (['a', 'b'] : List Char) ≠ [] ∧
      (∀ c ∈ chunk_text ['a', 'b'] 1000 200, c ≠ []) ∧
      (200 ≤ 1000 → ∀ c ∈ (chunk_text ['a', 'b'] 1000 200).dropLast, pyStrip c ≠ []) :=
  ⟨by decide,
    (chunk_text_chunks_amended ['a', 'b'] 1000 200 (by decide) (by omega)).1,
    (chunk_text_chunks_amended ['a', 'b'] 1000 200 (by decide) (by omega)).2⟩

/-!
## C1: the boundary-selection loop is dead code

`best_end` is initialised to `target_end`, so the comparison
`abs(boundary - target_end) < abs(best_end - target_end)` starts against
distance 0 and can never hold; `chunk_text` therefore always hard-cuts at
`target_end` even when a closer candidate boundary exists
(`bestEndLoop_self` proves this in general; below it is exhibited on a
concrete failing input against the claim).
-/

set_option maxRecDepth 100000

/-- **C1** (code bug, evaluated at the failing input): the candidate set
for the first iteration (window `(0, 200]`) is exactly `[102]`, so the
candidate closest to `target_end = 200` is 102, yet the first chunk ends
at the hard cut 200 (lengths `[200, 52]`). -/
theorem chunk_text_ignores_boundary_candidates :
    loopBoundaries textC1 false 0 200 = [102] ∧
      isMarkdown textC1 = false ∧
      (chunk_text textC1 200 0).map List.length = [200, 52] ∧
      (102 : Nat) ≠ 200 := by
  refine ⟨by decide, by decide, by decide, by decide⟩

/-!
## C5: the 2500-character plain-text scenario

All boundary scanners return nothing on pure-`'a'` text, so the loop
hard-cuts with overlap advance: cuts at 1000 and 1800 with resume points
800 and 1600, then the remainder `[1600, 2500)` — lengths 1000, 1000, 900
(not `≤ 700`), and via the boundary-search path, not the `< 200`
fixed-width fallback.
-/

theorem isTerm_a : isTerm 'a' = false := by decide

theorem isPySpace_a : isPySpace 'a' = false := by decide

theorem sentScan_rep (n : Nat) : ∀ pos, sentScan (List.replicate n 'a') pos 0 = [] := by
  induction n with
  | zero => intro pos; rfl
  | succ m ih =>
    intro pos
    rw [List.replicate_succ, sentScan]
    simp [isTerm_a, ih]

theorem paraScan_rep (n : Nat) : ∀ pos, paraScan (List.replicate n 'a') pos 0 = [] := by
  induction n with
  | zero => intro pos; rfl
  | succ m ih =>
    intro pos
    rw [List.replicate_succ, paraScan]
    simp [ih]

theorem headerAt_a (r : List Char) : headerAt ('a' :: r) = false := by
  rw [headerAt]
  have h : countHashes ('a' :: r) = 0 := rfl
  simp [h]

theorem headerScan_rep (n : Nat) : ∀ pos b, headerScan (List.replicate n 'a') pos b = [] := by
  induction n with
  | zero => intro pos b; rfl
  | succ m ih =>
    intro pos b
    rw [List.replicate_succ, headerScan]
    simp [ih, headerAt_a]

theorem fenceScan_rep (n : Nat) : ∀ pos run, fenceScan (List.replicate n 'a') pos run = [] := by
  induction n with
  | zero => intro pos run; rfl
  | succ m ih =>
    intro pos run
    rw [List.replicate_succ, fenceScan]
    simp [ih, btick]

theorem bulletSearch_rep (n : Nat) : ∀ fl, bulletSearch (List.replicate n 'a') fl = false := by
  induction n with
  | zero => intro fl; rfl
  | succ m ih =>
    intro fl
    cases m with
    | zero => rfl
    | succ k =>
      rw [List.replicate_succ, List.replicate_succ, bulletSearch]
      rw [← List.replicate_succ]
      simp [isPySpace_a, ih]

theorem orderedAt_a (r : List Char) : orderedAt ('a' :: r) = false := by
  rw [orderedAt]
  have h : countDigits ('a' :: r) = 0 := by
    rw [countDigits]
    have hd : 'a'.isDigit = false := by decide
    simp [hd]
  simp [h]

theorem orderedSearch_rep (n : Nat) : ∀ fl, orderedSearch (List.replicate n 'a') fl = false := by
  induction n with
  | zero => intro fl; rfl
  | succ m ih =>
    intro fl
    rw [List.replicate_succ, orderedSearch]
    simp [isPySpace_a, ih, orderedAt_a]

theorem linkSearch_rep (n : Nat) : linkSearch (List.replicate n 'a') = false := by
  induction n with
  | zero => rfl
  | succ m ih =>
    rw [List.replicate_succ, linkSearch]
    simp [ih]

theorem boldSearch_rep (n : Nat) : boldSearch (List.replicate n 'a') = false := by
  induction n with
  | zero => rfl
  | succ m ih =>
    cases m with
    | zero => rfl
    | succ k =>
      rw [List.replicate_succ, List.replicate_succ, boldSearch]
      rw [← List.replicate_succ]
      simp [ih]

theorem italSearch_rep (n : Nat) : italSearch (List.replicate n 'a') = false := by
  induction n with
  | zero => rfl
  | succ m ih =>
    rw [List.replicate_succ, italSearch]
    simp [ih]

theorem isMarkdown_rep (n : Nat) : isMarkdown (List.replicate n 'a') = false := by
  rw [isMarkdown]
  rw [List.take_replicate]
  simp [headerScan_rep, fenceScan_rep, bulletSearch_rep, orderedSearch_rep,
    linkSearch_rep, boldSearch_rep, italSearch_rep]

theorem slice_rep (n a b : Nat) :
    slice (List.replicate n 'a') a b = List.replicate (min (b - a) (n - a)) 'a' := by
  simp [slice, List.drop_replicate, List.take_replicate]

theorem dropWhile_rep (n : Nat) :
    (List.replicate n 'a').dropWhile isPySpace = List.replicate n 'a' := by
  cases n with
  | zero => rfl
  | succ m => rw [List.replicate_succ, List.dropWhile_cons, isPySpace_a]; simp

theorem pyStrip_rep (n : Nat) : pyStrip (List.replicate n 'a') = List.replicate n 'a' := by
  rw [pyStrip, dropWhile_rep, List.reverse_replicate, dropWhile_rep, List.reverse_replicate]

theorem loopBoundaries_rep (n : Nat) (s e : Nat) :
    loopBoundaries (List.replicate n 'a') false s e = [] := by
  rw [loopBoundaries]
  rw [findSentenceBoundaries, slice_rep, sentScan_rep, paraScan_rep]
  simp [sortedDedup]

/-- One hard-cut iteration of the main loop when the boundary set of the
window is empty: appends the stripped slice `[start, start+cs)` and
resumes at `max(start+1, start+cs-co)`. -/
theorem chunkLoop_hardStep (t : List Char) (cs co : Nat) (md : Bool) (fuel fuel1 start : Nat)
    (acc : List (List Char))
    (hf : fuel = fuel1 + 1)
    (hb : loopBoundaries t md start (start + cs + co) = [])
    (h1 : start + cs < t.length)
    (h2 : max (start + 1) (start + cs - co) < t.length)
    (hck : (pyStrip (slice t start (start + cs))).isEmpty = false) :
    chunkLoop t cs co md fuel start acc =
      chunkLoop t cs co md fuel1 (max (start + 1) (start + cs - co))
        (acc ++ [pyStrip (slice t start (start + cs))]) := by
  subst hf
  rw [chunkLoop_succ]
  rw [if_neg (by omega), if_neg (by omega)]
  simp only [hb, List.filter_nil]
  simp only [hck, Bool.false_eq_true, if_false]
  have hred : (match ([] : List Nat).getLast? with
      | some b => b
      | none => max (start + 1) (start + cs - co)) = max (start + 1) (start + cs - co) := rfl
  rw [hred]
  rw [if_neg (by omega)]

/-- The final iteration of the main loop: when `target_end` reaches the
end of the text, the remainder is appended untrimmed. -/
theorem chunkLoop_finalStep (t : List Char) (cs co : Nat) (md : Bool) (fuel fuel1 start : Nat)
    (acc : List (List Char))
    (hf : fuel = fuel1 + 1)
    (h0 : start < t.length) (h1 : t.length ≤ start + cs) :
    chunkLoop t cs co md fuel start acc = some (acc ++ [slice t start t.length]) := by
  subst hf
  rw [chunkLoop_succ, if_neg (by omega), if_pos h1]

theorem chunk_text_2500 :
    chunk_text (List.replicate 2500 'a') 1000 200 =
      [List.replicate 1000 'a', List.replicate 1000 'a', List.replicate 900 'a'] := by
  have hlen : (List.replicate 2500 'a').length = 2500 := by rw [List.length_replicate]
  have hemp : (List.replicate 2500 'a').isEmpty = false := by
    simp [List.isEmpty_replicate]
  have hck : ∀ a b : Nat, b - a = 1000 → 2500 - a ≥ 1000 →
      (pyStrip (slice (List.replicate 2500 'a') a b)).isEmpty = false := by
    intro a b h1 h2
    rw [slice_rep, h1]
    rw [show min 1000 (2500 - a) = 1000 from by omega]
    rw [pyStrip_rep]
    simp [List.isEmpty_replicate]
  have st1 := chunkLoop_hardStep (List.replicate 2500 'a') 1000 200 false (2500 + 1) 2500 0 []
    rfl
    (loopBoundaries_rep 2500 0 (0 + 1000 + 200))
    (by rw [hlen]; norm_num) (by rw [hlen]; norm_num)
    (hck 0 (0 + 1000) (by norm_num) (by norm_num))
  have st2 := chunkLoop_hardStep (List.replicate 2500 'a') 1000 200 false 2500 2499 800
    [List.replicate 1000 'a']
    (by norm_num)
    (loopBoundaries_rep 2500 800 (800 + 1000 + 200))
    (by rw [hlen]; norm_num) (by rw [hlen]; norm_num)
    (hck 800 (800 + 1000) (by norm_num) (by norm_num))
  have st3 := chunkLoop_finalStep (List.replicate 2500 'a') 1000 200 false 2499 2498 1600
    [List.replicate 1000 'a', List.replicate 1000 'a']
    (by norm_num)
    (by rw [hlen]; norm_num) (by rw [hlen]; norm_num)
  rw [chunk_text, chunkTextF]
  rw [hemp]
  simp only [Bool.false_eq_true, if_false]
  rw [if_neg (by norm_num : ¬ ((1000 : Nat) < 200))]
  rw [isMarkdown_rep, hlen]
  rw [st1]
  rw [show max (0 + 1) (0 + 1000 - 200) = 800 from by norm_num]
  rw [show pyStrip (slice (List.replicate 2500 'a') 0 (0 + 1000)) = List.replicate 1000 'a' from by
    rw [slice_rep]
    rw [show min (0 + 1000 - 0) (2500 - 0) = 1000 from by norm_num]
    rw [pyStrip_rep]]
  simp only [List.nil_append]
  rw [st2]
  rw [show max (800 + 1) (800 + 1000 - 200) = 1600 from by norm_num]
  rw [show pyStrip (slice (List.replicate 2500 'a') 800 (800 + 1000)) = List.replicate 1000 'a' from by
    rw [slice_rep]
    rw [show min (800 + 1000 - 800) (2500 - 800) = 1000 from by norm_num]
    rw [pyStrip_rep]]
  simp only [List.singleton_append]
  rw [st3]
  rw [hlen]
  rw [show slice (List.replicate 2500 'a') 1600 2500 = List.replicate 900 'a' from by
    rw [slice_rep]
    rw [show min (2500 - 1600) (2500 - 1600) = 900 from by norm_num]]
  rfl

/-- **C5 counterexample**: on the 2500-character punctuation-free text
with `chunk_size = 1000, chunk_overlap = 200`, `chunk_text` returns
chunks of lengths `[1000, 1000, 900]` — the third chunk has 900 > 700
characters — and the fixed-width fallback is not taken (`¬ 1000 < 200`),
refuting the claimed lengths `1000, 1000, ≤ 700` via fallback. -/
theorem chunk_text_2500_cex :
    (chunk_text (List.replicate 2500 'a') 1000 200).map List.length = [1000, 1000, 900] ∧
      ¬ ((900 : Nat) ≤ 700) ∧ ¬ ((1000 : Nat) < 200) := by
  refine ⟨?_, by norm_num, by norm_num⟩
  rw [chunk_text_2500]
  simp

/-- **C5 amended** (proved): the 2500-character punctuation-free text with
`chunk_size = 1000, chunk_overlap = 200` produces exactly 3 chunks — via
the boundary-search path with an empty candidate set (hard cuts with
overlap advance), not the fixed-width fallback — of lengths
`1000, 1000, 900`, all non-empty. -/
theorem chunk_text_2500_amended :
    (chunk_text (List.replicate 2500 'a') 1000 200).length = 3 ∧
      (chunk_text (List.replicate 2500 'a') 1000 200).map List.length = [1000, 1000, 900] ∧
      ∀ c ∈ chunk_text (List.replicate 2500 'a') 1000 200, c ≠ [] := by
  rw [chunk_text_2500]
  refine ⟨rfl, by simp, ?_⟩
  intro c hc
  have hlen : c.length = 1000 ∨ c.length = 900 := by
    simp only [List.mem_cons, List.not_mem_nil, or_false] at hc
    rcases hc with h | h | h <;> (subst h; simp)
  intro hnil
  subst hnil
  simp at hlen

/-!
## C4: retrieval is session-scoped
-/

theorem matchesWhere_sessionId {w : WhereC} {r : ChromaRecord}
    (h : matchesWhere w r = true) : r.sessionId = w.sessionId := by
  unfold matchesWhere at h
  simp only [Bool.and_eq_true, decide_eq_true_eq] at h
  exact h.1

theorem chromaQuery_mem {store : List ChromaRecord} {w : WhereC} {k : Nat}
    {rank : Vec → List ChromaRecord → List ChromaRecord} {qv : Vec} {r : ChromaRecord}
    (hrank : ∀ v l x, x ∈ rank v l → x ∈ l)
    (hr : r ∈ chromaQuery store w k rank qv) : matchesWhere w r = true := by
  unfold chromaQuery at hr
  have h1 : r ∈ rank qv (store.filter (matchesWhere w)) :=
    (List.take_sublist _ _).mem hr
  have h2 := hrank _ _ _ h1
  exact (List.mem_filter.mp h2).2

/-- The blank-query early return of `retrieve`, as one equation. -/
theorem retrieve_eq_blank (configured : Bool) (api : List String → List Vec)
    (store : List ChromaRecord) (rank : Vec → List ChromaRecord → List ChromaRecord)
    (sid : String) (q : String) (topK : Int) (fn : Option String)
    (h : (pyStripS q).isEmpty = true) :
    retrieve configured api store rank sid q topK fn = ⟨Except.ok [], 0, []⟩ := by
  unfold retrieve
  rw [if_pos h]

/-- `retrieve` when the embedding call fails, as one equation. -/
theorem retrieve_eq_error (configured : Bool) (api : List String → List Vec)
    (store : List ChromaRecord) (rank : Vec → List ChromaRecord → List ChromaRecord)
    (sid : String) (q : String) (topK : Int) (fn : Option String) (e : String) (n : Nat)
    (h : (pyStripS q).isEmpty = false)
    (hemb : embedTexts configured api [pyStripS q] = (Except.error e, n)) :
    retrieve configured api store rank sid q topK fn = ⟨Except.error e, n, []⟩ := by
  unfold retrieve
  rw [if_neg (by simp [h]), hemb]

/-- `retrieve` when the embedding call succeeds, as one equation. -/
theorem retrieve_eq_ok (configured : Bool) (api : List String → List Vec)
    (store : List ChromaRecord) (rank : Vec → List ChromaRecord → List ChromaRecord)
    (sid : String) (q : String) (topK : Int) (fn : Option String) (embs : List Vec) (n : Nat)
    (h : (pyStripS q).isEmpty = false)
    (hemb : embedTexts configured api [pyStripS q] = (Except.ok embs, n)) :
    retrieve configured api store rank sid q topK fn =
      ⟨Except.ok (chromaQuery store
          ⟨sid, match fn with
                | some f => if f.isEmpty then none else some f
                | none => none⟩
          (max 1 (min topK 10)).toNat rank (embs.headD [])), n,
        [(⟨sid, match fn with
               | some f => if f.isEmpty then none else some f
               | none => none⟩, (max 1 (min topK 10)).toNat)]⟩ := by
  unfold retrieve
  rw [if_neg (by simp [h]), hemb]

/-- **C4** (confirmed): whatever the store contents, the external ranking
(assumed only to return elements of its input), and the caller arguments,
every where-clause issued by `retrieve` carries the exact `session_id`
equality predicate, and every returned record's metadata `session_id`
equals the argument — cross-session leakage is structurally impossible. -/
theorem retrieve_session_scoped (configured : Bool) (api : List String → List Vec)
    (store : List ChromaRecord) (rank : Vec → List ChromaRecord → List ChromaRecord)
    (sid : String) (q : String) (topK : Int) (fn : Option String)
    (hrank : ∀ v l x, x ∈ rank v l → x ∈ l) :
    (∀ wk ∈ (retrieve configured api store rank sid q topK fn).queries,
        wk.1.sessionId = sid) ∧
      ∀ out, (retrieve configured api store rank sid q topK fn).results = Except.ok out →
        ∀ r ∈ out, r.sessionId = sid := by
  by_cases h0 : (pyStripS q).isEmpty
  · rw [retrieve_eq_blank configured api store rank sid q topK fn h0]
    refine ⟨fun wk hwk => absurd hwk (by simp), ?_⟩
    intro out hout r hr
    simp only [Except.ok.injEq] at hout
    subst hout
    simp at hr
  · have h0f : (pyStripS q).isEmpty = false := by simpa using h0
    cases hemb : embedTexts configured api [pyStripS q] with
    | mk res n =>
      cases res with
      | error e =>
        rw [retrieve_eq_error configured api store rank sid q topK fn e n h0f hemb]
        refine ⟨fun wk hwk => absurd hwk (by simp), ?_⟩
        intro out hout
        simp at hout
      | ok embs =>
        rw [retrieve_eq_ok configured api store rank sid q topK fn embs n h0f hemb]
        constructor
        · intro wk hwk
          simp only [List.mem_singleton] at hwk
          subst hwk
          rfl
        · intro out hout r hr
          simp only [Except.ok.injEq] at hout
          subst hout
          have hm := chromaQuery_mem hrank hr
          exact matchesWhere_sessionId hm

/-- Witness for C4: a two-session store; the single record retrieved for
session `"s"` carries `session_id = "s"`. -/
theorem retrieve_session_scoped_witness :
    ({ rid := "i1", embedding := [1], document := "hello", sessionId := "s",
       documentId := "d1", filename := "f.txt", chunkIndex := 0 } : ChromaRecord).sessionId
      = "s" :=
  (retrieve_session_scoped true (fun _ => [[1]])
      [{ rid := "i1", embedding := [1], document := "hello", sessionId := "s",
         documentId := "d1", filename := "f.txt", chunkIndex := 0 },
       { rid := "i2", embedding := [2], document := "other", sessionId := "besides",
         documentId := "d2", filename := "g.txt", chunkIndex := 0 }]
      (fun _ l => l) "s" "x" 5 none (fun _ _ _ h => h)).2
    [{ rid := "i1", embedding := [1], document := "hello", sessionId := "s",
       documentId := "d1", filename := "f.txt", chunkIndex := 0 }]
    rfl
    { rid := "i1", embedding := [1], document := "hello", sessionId := "s",
      documentId := "d1", filename := "f.txt", chunkIndex := 0 }
    (by decide)

/-!
## C7: missing credential fails before any remote call
-/

/-- **C7** (confirmed): with no credential configured, `ingest_files`
returns the configuration error with zero embedding calls dispatched and
zero records added to the vector store (the check in `_embed_texts`
precedes both the empty-batch check and the remote call), and `retrieve`
on any non-blank query returns the same configuration error with zero
embedding calls. -/
theorem no_credential_rejected (api : List String → List Vec) (env : LoadEnv)
    (sid : String) (paths : List PyPath) (store : List ChromaRecord)
    (rank : Vec → List ChromaRecord → List ChromaRecord) (q : String) (topK : Int)
    (fn : Option String) :
    (ingest_files false api env sid paths).result =
        Except.error "OPENAI_API_KEY is not configured; cannot generate embeddings." ∧
      (ingest_files false api env sid paths).embedCalls = 0 ∧
      (ingest_files false api env sid paths).added = [] ∧
      ((pyStripS q).isEmpty = false →
        (retrieve false api store rank sid q topK fn).results =
          Except.error "OPENAI_API_KEY is not configured; cannot generate embeddings.") ∧
      (retrieve false api store rank sid q topK fn).embedCalls = 0 := by
  refine ⟨rfl, rfl, rfl, ?_, ?_⟩
  · intro h
    rw [retrieve_eq_error false api store rank sid q topK fn
      "OPENAI_API_KEY is not configured; cannot generate embeddings." 0 h rfl]
  · by_cases h0 : (pyStripS q).isEmpty
    · rw [retrieve_eq_blank false api store rank sid q topK fn h0]
    · have h0f : (pyStripS q).isEmpty = false := by simpa using h0
      rw [retrieve_eq_error false api store rank sid q topK fn
        "OPENAI_API_KEY is not configured; cannot generate embeddings." 0 h0f rfl]

/-- Witness for C7: concrete unconfigured `retrieve` with a non-blank
query returns the configuration error. -/
theorem no_credential_rejected_witness :
    (retrieve false (fun _ => []) [] (fun _ l => l) "s" "x" 5 none).results =
      Except.error "OPENAI_API_KEY is not configured; cannot generate embeddings." :=
  (no_credential_rejected (fun _ => [])
      ⟨fun _ => Except.error "e", false, fun _ => Except.error "e", false,
        fun _ => Except.error "e"⟩
      "s" [] [] (fun _ l => l) "x" 5 none).2.2.2.1 (by decide)

/-!
## C8: blank query short-circuits
-/

/-- **C8** (confirmed): a query that is empty after stripping returns the
empty list, dispatches no embedding call and issues no vector-store
query — the early return precedes the clamp, the embedding and the
store query. -/
theorem retrieve_blank_query (configured : Bool) (api : List String → List Vec)
    (store : List ChromaRecord) (rank : Vec → List ChromaRecord → List ChromaRecord)
    (sid : String) (q : String) (topK : Int) (fn : Option String)
    (h : (pyStripS q).isEmpty = true) :
    (retrieve configured api store rank sid q topK fn).results = Except.ok [] ∧
      (retrieve configured api store rank sid q topK fn).embedCalls = 0 ∧
      (retrieve configured api store rank sid q topK fn).queries = [] := by
  unfold retrieve
  rw [if_pos h]
  exact ⟨rfl, rfl, rfl⟩

/-- Witness for C8 at the whitespace-only query `"  "`. -/
theorem retrieve_blank_query_witness :
    (retrieve true (fun _ => []) [] (fun _ l => l) "s" "  " 5 none).results = Except.ok [] ∧
      (retrieve true (fun _ => []) [] (fun _ l => l) "s" "  " 5 none).embedCalls = 0 ∧
      (retrieve true (fun _ => []) [] (fun _ l => l) "s" "  " 5 none).queries = [] :=
  retrieve_blank_query true (fun _ => []) [] (fun _ l => l) "s" "  " 5 none (by decide)

/-!
## C10: `top_k` is clamped to `[1, 10]`
-/

/-- **C10** (confirmed): for every caller-supplied `top_k` (zero,
negative, or above 10 included), every query issued to the vector store
requests `max(1, min(top_k, 10)) ∈ [1, 10]` results. -/
theorem retrieve_topk_clamped (configured : Bool) (api : List String → List Vec)
    (store : List ChromaRecord) (rank : Vec → List ChromaRecord → List ChromaRecord)
    (sid : String) (q : String) (topK : Int) (fn : Option String) :
    ∀ wk ∈ (retrieve configured api store rank sid q topK fn).queries,
      1 ≤ wk.2 ∧ wk.2 ≤ 10 := by
  intro wk hwk
  by_cases h0 : (pyStripS q).isEmpty
  · rw [retrieve_eq_blank configured api store rank sid q topK fn h0] at hwk
    simp at hwk
  · have h0f : (pyStripS q).isEmpty = false := by simpa using h0
    cases hemb : embedTexts configured api [pyStripS q] with
    | mk res n =>
      cases res with
      | error e =>
        rw [retrieve_eq_error configured api store rank sid q topK fn e n h0f hemb] at hwk
        simp at hwk
      | ok embs =>
        rw [retrieve_eq_ok configured api store rank sid q topK fn embs n h0f hemb] at hwk
        simp only [List.mem_singleton] at hwk
        subst hwk
        constructor <;> omega

/-- Witness for C10: the caller passes `top_k = 99`; the store query
requests 10. -/
theorem retrieve_topk_clamped_witness : 1 ≤ (10 : Nat) ∧ (10 : Nat) ≤ 10 :=
  retrieve_topk_clamped true (fun _ => [[]]) [] (fun _ l => l) "s" "x" 99 none
    (⟨"s", none⟩, 10) (by decide)

/-!
## C9: `load_files` totality, order, and error conversion
-/

/-- **C9 counterexample**: a `.md` file whose read raises is converted to
a placeholder content inside `load_file` — `load_files` succeeds but the
resulting document's `error` field is `none`, not populated, refuting
"any per-file extraction exception ... plus a populated `error` field". -/
theorem load_files_md_error_field_cex :
    load_files
        ⟨fun _ => Except.error "boom", false, fun _ => Except.error "x", false,
          fun _ => Except.error "x"⟩
        [⟨"/tmp/f.md", "f.md", ".md"⟩] =
      [⟨"[Error reading Markdown f.md: boom]", "f.md", "text/markdown", "/tmp/f.md", none⟩] ∧
      (⟨"[Error reading Markdown f.md: boom]", "f.md", "text/markdown", "/tmp/f.md",
        (none : Option String)⟩ : PyDoc).error = none := by
  refine ⟨by decide, rfl⟩

theorem load_file_filename {env : LoadEnv} {p : PyPath} {d : PyDoc}
    (h : load_file env p = Except.ok d) : d.filename = p.name := by
  unfold load_file at h
  by_cases h1 : lowerS p.suffix = ".txt"
  · rw [if_pos h1] at h
    cases hre : load_text_file env p with
    | ok c =>
      rw [hre] at h
      simp only [Except.ok.injEq] at h
      subst h
      rfl
    | error e =>
      rw [hre] at h
      simp at h
  · rw [if_neg h1] at h
    by_cases h2 : lowerS p.suffix = ".md" ∨ lowerS p.suffix = ".markdown"
    · rw [if_pos h2] at h
      simp only [Except.ok.injEq] at h
      subst h
      rfl
    · rw [if_neg h2] at h
      by_cases h3 : lowerS p.suffix = ".pdf"
      · rw [if_pos h3] at h
        simp only [Except.ok.injEq] at h
        subst h
        rfl
      · rw [if_neg h3] at h
        by_cases h4 : lowerS p.suffix = ".docx"
        · rw [if_pos h4] at h
          simp only [Except.ok.injEq] at h
          subst h
          rfl
        · rw [if_neg h4] at h
          cases hre : load_text_file env p with
          | ok c =>
            rw [hre] at h
            simp only [Except.ok.injEq] at h
            subst h
            rfl
          | error e =>
            rw [hre] at h
            simp only [Except.ok.injEq] at h
            subst h
            rfl

/-- **C9 amended** (proved): `load_files` never raises (it is total) and
returns exactly one document per input path in input order
(`document_id` = the path string, `filename` = the path's name); an
exception *escaping* `load_file` (e.g. a `.txt` read failure) is
converted into a placeholder content plus a populated `error` field,
while exceptions handled *inside* `load_file` (markdown/PDF/DOCX) yield
placeholder content with no `error` field. -/
theorem load_files_amended (env : LoadEnv) (paths : List PyPath) :
    ((load_files env paths).map (fun d => d.documentId) = paths.map (fun p => p.pathStr)) ∧
      ((load_files env paths).map (fun d => d.filename) = paths.map (fun p => p.name)) ∧
      (∀ p e, load_file env p = Except.error e →
        load_files env [p] =
          [⟨"[Error loading " ++ p.name ++ ": " ++ e ++ "]", p.name, "text/plain",
            p.pathStr, some e⟩]) ∧
      (∀ p e, lowerS p.suffix = ".md" → env.readText p = Except.error e →
        load_file env p =
          Except.ok ⟨"[Error reading Markdown " ++ p.name ++ ": " ++ e ++ "]", p.name,
            inferContentType p, "", none⟩) := by
  refine ⟨?_, ?_, ?_, ?_⟩
  · induction paths with
    | nil => rfl
    | cons p ps ih =>
      simp only [load_files, List.map_cons] at *
      rw [ih]
      cases hl : load_file env p <;> simp [hl]
  · induction paths with
    | nil => rfl
    | cons p ps ih =>
      simp only [load_files, List.map_cons] at *
      rw [ih]
      cases hl : load_file env p with
      | ok d => simp [hl, load_file_filename hl]
      | error e => simp [hl]
  · intro p e h
    unfold load_files
    simp [h]
  · intro p e hmd h
    simp [load_file, load_text_file, hmd, h]

/-- Witness for the amended C9: a `.txt` file whose read raises `"boom"`
yields the placeholder document with `error = some "boom"`, and document
ids follow the paths. -/
theorem load_files_amended_witness :
    ((load_files
          ⟨fun _ => Except.error "boom", false, fun _ => Except.error "x", false,
            fun _ => Except.error "x"⟩
          [⟨"/a/f.txt", "f.txt", ".txt"⟩]).map (fun d => d.documentId) = ["/a/f.txt"]) ∧
      load_files
          ⟨fun _ => Except.error "boom", false, fun _ => Except.error "x", false,
            fun _ => Except.error "x"⟩
          [⟨"/a/f.txt", "f.txt", ".txt"⟩] =
        [⟨"[Error loading f.txt: boom]", "f.txt", "text/plain", "/a/f.txt", some "boom"⟩] :=
  ⟨(load_files_amended
      ⟨fun _ => Except.error "boom", false, fun _ => Except.error "x", false,
        fun _ => Except.error "x"⟩
      [⟨"/a/f.txt", "f.txt", ".txt"⟩]).1,
    (load_files_amended
        ⟨fun _ => Except.error "boom", false, fun _ => Except.error "x", false,
          fun _ => Except.error "x"⟩
        [⟨"/a/f.txt", "f.txt", ".txt"⟩]).2.2.1
      ⟨"/a/f.txt", "f.txt", ".txt"⟩ "boom" rfl⟩

end AiChat
